import Mathlib

/-!
Verification of the knowledge-graph query engine (`scripts/query_kg.py`).

The script loads a JSON document with top-level keys `entities`,
`relationships`, `notes`, `metadata` and answers read-only queries:
`find_entity`, `find_related`, `list_types`, `list_entities_by_type`,
`search`, `show_info`.

Embedding conventions:
* A missing top-level key is modelled by `Option.none`; `kg.get(key, default)`
  becomes `Option.getD`.
* Entities always carry `id` and `name` (the script reads them with
  `entity['id']` / `entity['name']`, so a document without them crashes before
  producing any result; display formatting is out of scope).  The `type` and
  `source_file` keys are read with `.get(...)` in the functions under study,
  so they are `Option`-valued.  Likewise relationship `source`/`target` are
  required and `type` is optional.
* Python `str.lower()` is modelled on ASCII (`lowerChar`), `pat in s` by
  `listSub`/`strIn` (contiguous-substring test), string `<` by code-point
  lexicographic order (`charsLe`), and the stable `list.sort(key=...)` by
  the stable `insertionSort` defined below (any two stable sorts agree, and
  a structurally recursive sort lets the kernel evaluate results).
* `json.dumps` (default separators `", "`/`": "`, `ensure_ascii=True`) is
  modelled by `dumpsEntityData`/`dumpsRelData` over the modelled fields, with
  keys serialized in the canonical load order `id, name, type, source_file`
  (resp. `source, target, type`); absent optional keys are omitted.
-/

/-- ASCII model of Python `str.lower()` applied to one character. -/
def lowerChar (c : Char) : Char :=
  if 65 ≤ c.toNat ∧ c.toNat ≤ 90 then Char.ofNat (c.toNat + 32) else c

/-- Lowercase every character of a character list. -/
def lowerData (l : List Char) : List Char := l.map lowerChar

/-- Model of Python `str.lower()`. -/
def lowerStr (s : String) : String := ⟨lowerData s.data⟩

/-- Boolean test: does `l` start with `p`?  (Model of `str.startswith`,
used only to define the substring test below.) -/
def listPre : List Char → List Char → Bool
  | [], _ => true
  | _ :: _, [] => false
  | a :: as, b :: bs => a == b && listPre as bs

/-- Boolean test: does `p` occur contiguously inside `l`?  Model of the
Python expression `p in l` on strings. -/
def listSub : List Char → List Char → Bool
  | p, [] => p.isEmpty
  | p, b :: l => listPre p (b :: l) || listSub p l

/-- Model of Python `pat in hay` for strings. -/
def strIn (pat hay : String) : Bool := listSub pat.data hay.data

/-- Code-point lexicographic `≤` on character lists: the order Python uses
to compare strings. -/
def charsLe : List Char → List Char → Bool
  | [], _ => true
  | _ :: _, [] => false
  | a :: as, b :: bs =>
    decide (a.toNat < b.toNat) || (a.toNat == b.toNat && charsLe as bs)

/-- Code-point lexicographic `≤` on strings (Python string comparison). -/
def strLe (a b : String) : Bool := charsLe a.data b.data

/-! ### Substring lemmas -/

theorem listPre_iff (p : List Char) : ∀ l, listPre p l = true ↔ ∃ t, l = p ++ t := by
  induction p with
  | nil => intro l; simp [listPre]
  | cons a as ih =>
    intro l
    cases l with
    | nil =>
      simp [listPre]
    | cons b bs =>
      simp only [listPre, Bool.and_eq_true, beq_iff_eq, ih bs]
      constructor
      · rintro ⟨rfl, t, rfl⟩; exact ⟨t, rfl⟩
      · rintro ⟨t, h⟩
        injection h with h1 h2
        exact ⟨h1.symm, t, h2⟩

theorem listSub_iff (p l : List Char) : listSub p l = true ↔ ∃ a b, l = a ++ (p ++ b) := by
  induction l with
  | nil =>
    simp only [listSub, List.isEmpty_iff]
    constructor
    · rintro rfl; exact ⟨[], [], rfl⟩
    · rintro ⟨a, b, h⟩
      rcases List.append_eq_nil.mp h.symm with ⟨-, h2⟩
      exact (List.append_eq_nil.mp h2).1
  | cons c cs ih =>
    simp only [listSub, Bool.or_eq_true, listPre_iff, ih]
    constructor
    · rintro (⟨t, ht⟩ | ⟨a, b, hb⟩)
      · exact ⟨[], t, by simpa using ht⟩
      · exact ⟨c :: a, b, by simp [hb]⟩
    · rintro ⟨a, b, h⟩
      cases a with
      | nil => exact Or.inl ⟨b, by simpa using h⟩
      | cons a' as' =>
        injection h with h1 h2
        exact Or.inr ⟨as', b, h2⟩

theorem listSub_of_parts (a p b : List Char) : listSub p (a ++ (p ++ b)) = true :=
  (listSub_iff p _).mpr ⟨a, b, rfl⟩

theorem listSub_refl (l : List Char) : listSub l l = true := by
  have := listSub_of_parts [] l []
  simpa using this

theorem listSub_trans {p q l : List Char} (h1 : listSub p q = true)
    (h2 : listSub q l = true) : listSub p l = true := by
  rcases (listSub_iff p q).mp h1 with ⟨a, b, rfl⟩
  rcases (listSub_iff _ l).mp h2 with ⟨c, d, rfl⟩
  refine (listSub_iff p _).mpr ⟨c ++ a, b ++ d, by simp⟩

theorem listSub_map (f : Char → Char) {p l : List Char} (h : listSub p l = true) :
    listSub (p.map f) (l.map f) = true := by
  rcases (listSub_iff p l).mp h with ⟨a, b, rfl⟩
  refine (listSub_iff _ _).mpr ⟨a.map f, b.map f, by simp⟩

/-! ### Order lemmas for the Python string order -/

theorem charsLe_trans : ∀ x y z : List Char,
    charsLe x y = true → charsLe y z = true → charsLe x z = true := by
  intro x
  induction x with
  | nil => intro y z _ _; simp [charsLe]
  | cons a as ih =>
    intro y z h1 h2
    cases y with
    | nil => simp [charsLe] at h1
    | cons b bs =>
      cases z with
      | nil => simp [charsLe] at h2
      | cons c cs =>
        simp only [charsLe, Bool.or_eq_true, Bool.and_eq_true, decide_eq_true_eq,
          beq_iff_eq] at h1 h2 ⊢
        rcases h1 with h1 | ⟨h1e, h1r⟩
        · rcases h2 with h2 | ⟨h2e, h2r⟩
          · exact Or.inl (Nat.lt_trans h1 h2)
          · exact Or.inl (h2e ▸ h1)
        · rcases h2 with h2 | ⟨h2e, h2r⟩
          · exact Or.inl (h1e ▸ h2)
          · exact Or.inr ⟨h1e.trans h2e, ih bs cs h1r h2r⟩

theorem charsLe_total : ∀ x y : List Char, (charsLe x y || charsLe y x) = true := by
  intro x
  induction x with
  | nil => intro y; simp [charsLe]
  | cons a as ih =>
    intro y
    cases y with
    | nil => simp [charsLe]
    | cons b bs =>
      simp only [charsLe, Bool.or_eq_true, Bool.and_eq_true, decide_eq_true_eq,
        beq_iff_eq]
      rcases Nat.lt_trichotomy a.toNat b.toNat with h | h | h
      · exact Or.inl (Or.inl h)
      · rcases (Bool.or_eq_true _ _).mp (ih bs) with hr | hr
        · exact Or.inl (Or.inr ⟨h, hr⟩)
        · exact Or.inr (Or.inr ⟨h.symm, hr⟩)
      · exact Or.inr (Or.inl h)

theorem strLe_trans {x y z : String} (h1 : strLe x y = true) (h2 : strLe y z = true) :
    strLe x z = true :=
  charsLe_trans _ _ _ h1 h2

theorem strLe_total (x y : String) : (strLe x y || strLe y x) = true :=
  charsLe_total _ _

theorem strLe_refl (x : String) : strLe x x = true := by
  have := strLe_total x x
  simpa using this

/-! ### A stable sort

Python's `list.sort(key=...)` is a stable sort: elements are ordered by key
and elements with equal keys keep their relative order.  Any stable sorting
algorithm computes the same list, so the in-place sort is modelled by a
structurally recursive stable insertion sort (which the kernel can
evaluate), with sortedness, permutation and stability proved below. -/

/-- Insert `x` in front of the first element `y` with `le x y`. -/
def orderedInsert {α : Type*} (le : α → α → Bool) (x : α) : List α → List α
  | [] => [x]
  | y :: ys => if le x y then x :: y :: ys else y :: orderedInsert le x ys

/-- Stable insertion sort by the boolean order `le`. -/
def insertionSort {α : Type*} (le : α → α → Bool) : List α → List α
  | [] => []
  | x :: xs => orderedInsert le x (insertionSort le xs)

theorem orderedInsert_perm {α : Type*} (le : α → α → Bool) (x : α) :
    ∀ l : List α, List.Perm (orderedInsert le x l) (x :: l) := by
  intro l
  induction l with
  | nil => exact List.Perm.refl _
  | cons y ys ih =>
    by_cases h : le x y = true
    · simp [orderedInsert, h]
    · simp only [orderedInsert, h, if_false, Bool.false_eq_true]
      exact (ih.cons y).trans (List.Perm.swap x y ys)

theorem insertionSort_perm {α : Type*} (le : α → α → Bool) :
    ∀ l : List α, List.Perm (insertionSort le l) l := by
  intro l
  induction l with
  | nil => exact List.Perm.refl _
  | cons x xs ih =>
    exact (orderedInsert_perm le x (insertionSort le xs)).trans (ih.cons x)

theorem mem_insertionSort {α : Type*} (le : α → α → Bool) {x : α} {l : List α} :
    x ∈ insertionSort le l ↔ x ∈ l :=
  (insertionSort_perm le l).mem_iff

theorem sublist_orderedInsert {α : Type*} (le : α → α → Bool) (x : α) :
    ∀ l : List α, l.Sublist (orderedInsert le x l) := by
  intro l
  induction l with
  | nil => exact List.nil_sublist _
  | cons y ys ih =>
    by_cases h : le x y = true
    · simp only [orderedInsert, h, if_true]
      exact (List.Sublist.refl (y :: ys)).cons x
    · simp only [orderedInsert, h, if_false, Bool.false_eq_true]
      exact ih.cons₂ y

theorem pairwise_orderedInsert {α : Type*} {le : α → α → Bool}
    (htrans : ∀ a b c, le a b = true → le b c = true → le a c = true)
    (htotal : ∀ a b, (le a b || le b a) = true)
    (x : α) {l : List α} (h : l.Pairwise fun a b => le a b = true) :
    (orderedInsert le x l).Pairwise fun a b => le a b = true := by
  induction l with
  | nil => simp [orderedInsert]
  | cons y ys ih =>
    rcases List.pairwise_cons.mp h with ⟨hy, hys⟩
    by_cases hxy : le x y = true
    · simp only [orderedInsert, hxy, if_true]
      refine List.pairwise_cons.mpr ⟨?_, h⟩
      intro z hz
      rcases List.mem_cons.mp hz with rfl | hz
      · exact hxy
      · exact htrans x y z hxy (hy z hz)
    · simp only [orderedInsert, hxy, if_false, Bool.false_eq_true]
      refine List.pairwise_cons.mpr ⟨?_, ih hys⟩
      intro z hz
      rcases List.mem_cons.mp ((orderedInsert_perm le x ys).mem_iff.mp hz) with hzx | hz
      · rw [hzx]
        rcases Bool.or_eq_true _ _ |>.mp (htotal x y) with hl | hl
        · exact absurd hl hxy
        · exact hl
      · exact hy z hz

theorem insertionSort_sorted {α : Type*} {le : α → α → Bool}
    (htrans : ∀ a b c, le a b = true → le b c = true → le a c = true)
    (htotal : ∀ a b, (le a b || le b a) = true) :
    ∀ l : List α, (insertionSort le l).Pairwise fun a b => le a b = true := by
  intro l
  induction l with
  | nil => simp [insertionSort]
  | cons x xs ih => exact pairwise_orderedInsert htrans htotal x ih

theorem pair_sublist_orderedInsert {α : Type*} {le : α → α → Bool} {a b : α}
    (hle : le a b = true) : ∀ {l : List α}, b ∈ l →
    List.Sublist [a, b] (orderedInsert le a l) := by
  intro l
  induction l with
  | nil => intro h; cases h
  | cons y ys ih =>
    intro hb
    by_cases hay : le a y = true
    · simp only [orderedInsert, hay, if_true]
      exact (List.singleton_sublist.mpr hb).cons₂ a
    · simp only [orderedInsert, hay, if_false, Bool.false_eq_true]
      rcases List.mem_cons.mp hb with rfl | hb
      · exact absurd hle hay
      · exact (ih hb).cons y

theorem pair_sublist_insertionSort {α : Type*} {le : α → α → Bool} {a b : α}
    (hle : le a b = true) : ∀ {l : List α}, List.Sublist [a, b] l →
    List.Sublist [a, b] (insertionSort le l) := by
  intro l
  induction l with
  | nil => intro h; cases h
  | cons x xs ih =>
    intro h
    cases h with
    | cons _ h' => exact (ih h').trans (sublist_orderedInsert le x _)
    | cons₂ _ h' =>
      exact pair_sublist_orderedInsert hle
        ((mem_insertionSort le).mpr (List.singleton_sublist.mp h'))

/-! ### Data model -/

/-- An entity record of the knowledge-graph document.  `id` and `name` are
read with `entity['id']` / `entity['name']` in the script (required);
`type` and `source_file` are read with `.get(...)` in the functions modelled
here, hence optional. -/
structure Entity where
  id : String
  name : String
  type : Option String
  source_file : Option String
deriving DecidableEq, Repr

/-- A relationship record.  `source` and `target` are read with
`rel['source']` / `rel['target']` (required); `type` is optional where read
with `.get`, and `rel['type']` is only evaluated by the script on
relationships whose relevant endpoint resolved. -/
structure Relationship where
  source : String
  target : String
  type : Option String
deriving DecidableEq, Repr

/-- The parsed top-level document.  `none` models an absent key; every read
in the script goes through `kg.get(key, default)`. -/
structure KG where
  entities : Option (List Entity)
  relationships : Option (List Relationship)
  notes : Option (List (String × String))
  metadata : Option (List (String × String))
deriving DecidableEq, Repr

/-- `kg.get('entities', [])`. -/
def kgEntities (kg : KG) : List Entity := kg.entities.getD []

/-- `kg.get('relationships', [])`. -/
def kgRels (kg : KG) : List Relationship := kg.relationships.getD []

/-- Endpoint resolution used by `find_entity`, `find_related` and `search`:
`next((e for e in kg.get('entities', []) if e['id'] == rid), None)` — the
first entity in load order whose id matches, else `None`. -/
def resolveId (kg : KG) (rid : String) : Option Entity :=
  (kgEntities kg).find? fun e => e.id == rid

/-! ### JSON serialization (model of `json.dumps` on the modelled fields) -/

/-- Lowercase hex digit, as produced by `json.dumps` unicode escapes. -/
def hexDigit (n : Nat) : Char :=
  if n < 10 then Char.ofNat (48 + n) else Char.ofNat (97 + (n - 10))

/-- A `\uXXXX` escape sequence. -/
def uEscape (n : Nat) : List Char :=
  ['\\', 'u', hexDigit (n / 4096 % 16), hexDigit (n / 256 % 16),
   hexDigit (n / 16 % 16), hexDigit (n % 16)]

/-- Escaping of one character inside a JSON string, following
`json.dumps` with its default `ensure_ascii=True`: printable ASCII other
than quote and backslash is kept, the short escapes are used where they
exist, and everything outside `' '..'~'` becomes `\uXXXX`.  (Astral-plane
characters would use surrogate pairs in Python; the model emits a single
escape — no claim touches them.) -/
def jsonEscapeChar (c : Char) : List Char :=
  if c = '"' then ['\\', '"']
  else if c = '\\' then ['\\', '\\']
  else if c = '\n' then ['\\', 'n']
  else if c = '\t' then ['\\', 't']
  else if c = '\r' then ['\\', 'r']
  else if c.toNat = 8 then ['\\', 'b']
  else if c.toNat = 12 then ['\\', 'f']
  else if c.toNat < 32 ∨ 126 < c.toNat then uEscape c.toNat
  else [c]

/-- A JSON string literal: `"…"` with escaping. -/
def quoteJson (s : String) : List Char :=
  '"' :: (s.data.map jsonEscapeChar).flatten ++ ['"']

/-- `", \"k\": "` — the separator-plus-key prefix of a non-initial entry of a
serialized object (default `json.dumps` separators). -/
def keyPart (k : String) : List Char :=
  [',', ' '] ++ quoteJson k ++ [':', ' ']

/-- Model of `json.dumps(entity)` over the modelled fields, keys in the
canonical load order `id, name, type, source_file`; absent optional keys are
omitted, mirroring a dict that never had them. -/
def dumpsEntityData (e : Entity) : List Char :=
  ['\x7b'] ++ quoteJson "id" ++ [':', ' '] ++ quoteJson e.id
  ++ (keyPart "name" ++ quoteJson e.name)
  ++ (match e.type with
      | some t => keyPart "type" ++ quoteJson t
      | none => [])
  ++ (match e.source_file with
      | some sf => keyPart "source_file" ++ quoteJson sf
      | none => [])
  ++ ['\x7d']

/-- Model of `json.dumps(rel)`, keys in order `source, target, type`. -/
def dumpsRelData (r : Relationship) : List Char :=
  ['\x7b'] ++ quoteJson "source" ++ [':', ' '] ++ quoteJson r.source
  ++ (keyPart "target" ++ quoteJson r.target)
  ++ (match r.type with
      | some t => keyPart "type" ++ quoteJson t
      | none => [])
  ++ ['\x7d']

/-! ### Query operations -/

/-- The match test shared by `find_entity` and `find_related`:
`name.lower() in entity.get('name', '').lower()`. -/
def name_matches (pat : String) (e : Entity) : Bool :=
  strIn (lowerStr pat) (lowerStr e.name)

/-- `find_entity` (its result set): the entities whose name contains the
pattern case-insensitively, in document load order. -/
def find_entity (kg : KG) (pat : String) : List Entity :=
  (kgEntities kg).filter (name_matches pat)

/-- Direction tag attached to each resolved neighbor. -/
inductive Direction where
  | outgoing
  | incoming
deriving DecidableEq, Repr

/-- One element of the `related` list built by `find_related`:
`{'entity': …, 'relationship': rel['type'], 'direction': …}`. -/
structure Neighbor where
  entity : Entity
  relationship : Option String
  direction : Direction
deriving DecidableEq, Repr

/-- The `related` list of `find_related` for one matched entity, before
sorting: one pass over the relationships collecting resolved targets of
edges with `rel['source'] == entity['id']` (outgoing), then a second pass
collecting resolved sources of edges with `rel['target'] == entity['id']`
(incoming).  Unresolved (dangling) endpoints contribute nothing. -/
def relatedOf (kg : KG) (e : Entity) : List Neighbor :=
  ((kgRels kg).filterMap fun r =>
    if r.source == e.id then
      (resolveId kg r.target).map fun t => ⟨t, r.type, Direction.outgoing⟩
    else none)
  ++ ((kgRels kg).filterMap fun r =>
    if r.target == e.id then
      (resolveId kg r.source).map fun s => ⟨s, r.type, Direction.incoming⟩
    else none)

/-- The sort key comparison of `related.sort(key=lambda x: x['entity']['name'])`:
Python string `≤` on the neighbor's name. -/
def neighborLe (a b : Neighbor) : Bool := strLe a.entity.name b.entity.name

/-- `find_related` (its result data): for each matched entity, the related
list sorted stably by neighbor name.  The entity-matching loop is the same
code as in `find_entity`. -/
def find_related (kg : KG) (pat : String) : List (Entity × List Neighbor) :=
  (find_entity kg pat).map fun e => (e, insertionSort neighborLe (relatedOf kg e))

/-- `entity.get('type', 'unknown')` / `rel.get('type', 'unknown')`. -/
def typeOrUnknown (t : Option String) : String := t.getD "unknown"

/-- The entity-type half of `list_types`: the distinct values of
`entity.get('type', 'unknown')`, iterated in sorted order, each with the
count `sum(1 for e in entities if e.get('type') == t)` — note the count
reads the type *without* the `'unknown'` default. -/
def list_types_entities (kg : KG) : List (String × Nat) :=
  (insertionSort strLe ((kgEntities kg).map fun e => typeOrUnknown e.type).dedup).map
    fun t => (t, (kgEntities kg).countP fun e => e.type == some t)

/-- The relationship-type half of `list_types`, built the same way. -/
def list_types_rels (kg : KG) : List (String × Nat) :=
  (insertionSort strLe ((kgRels kg).map fun r => typeOrUnknown r.type).dedup).map
    fun t => (t, (kgRels kg).countP fun r => r.type == some t)

/-- `list_types`: both halves. -/
def list_types (kg : KG) : List (String × Nat) × List (String × Nat) :=
  (list_types_entities kg, list_types_rels kg)

/-- `list_entities_by_type`: case-insensitive exact match on
`entity.get('type', '')`, then a stable sort of the (fresh) filtered list by
`x.get('name', '')`. -/
def list_entities_by_type (kg : KG) (t : String) : List Entity :=
  insertionSort (fun a b => strLe a.name b.name)
    ((kgEntities kg).filter fun e => lowerStr (e.type.getD "") == lowerStr t)

/-- The entity results of `search`: entities whose lowercased JSON
serialization contains the lowercased term. -/
def search_entities (kg : KG) (term : String) : List Entity :=
  (kgEntities kg).filter fun e =>
    listSub (lowerStr term).data (lowerData (dumpsEntityData e))

/-- The relationship results of `search`: relationships whose lowercased
JSON serialization contains the term AND whose `source` and `target` both
resolve; the resolved endpoint entities accompany the relationship. -/
def search_relationships (kg : KG) (term : String) :
    List (Relationship × Entity × Entity) :=
  (kgRels kg).filterMap fun r =>
    if listSub (lowerStr term).data (lowerData (dumpsRelData r)) then
      match resolveId kg r.source, resolveId kg r.target with
      | some s, some t => some (r, s, t)
      | _, _ => none
    else none

/-- `search`: entity results then relationship results. -/
def search (kg : KG) (term : String) :
    List Entity × List (Relationship × Entity × Entity) :=
  (search_entities kg term, search_relationships kg term)

/-- The statistics printed by `show_info`. -/
structure InfoStats where
  entity_count : Nat
  rel_count : Nat
  note_count : Nat
  entity_type_count : Nat
  rel_type_count : Nat
  metadata : List (String × String)
deriving DecidableEq, Repr

/-- `show_info`: lengths of the collections, sizes of the sets of
`e.get('type')` / `r.get('type')` values (absent types collapse to one
`None` member), and the metadata mapping passed through. -/
def show_info (kg : KG) : InfoStats :=
  { entity_count := (kgEntities kg).length
    rel_count := (kgRels kg).length
    note_count := (kg.notes.getD []).length
    entity_type_count := (((kgEntities kg).map fun e => e.type).dedup).length
    rel_type_count := (((kgRels kg).map fun r => r.type).dedup).length
    metadata := kg.metadata.getD [] }

/-! ### The query surface as a state-threaded interface

The script keeps the loaded document in a local variable and hands it to each
query function, which only ever reads it: the lists that are mutated
(`matches`, `entities`, `related`, `results` and the in-place `sort` calls on
them) are fresh lists built by the query, never the document's own lists.
`runQuery` makes the document state explicit: each operation returns its
output together with the document as it is left behind. -/

/-- One request of the query surface. -/
inductive Query where
  | findEntityQ (pat : String)
  | findRelatedQ (pat : String)
  | listTypesQ
  | listEntitiesQ (t : String)
  | searchQ (term : String)
  | infoQ
deriving DecidableEq, Repr

/-- The output of one request. -/
inductive QueryOutput where
  | entitiesOut (l : List Entity)
  | relatedOut (l : List (Entity × List Neighbor))
  | typesOut (et rt : List (String × Nat))
  | searchOut (es : List Entity) (rs : List (Relationship × Entity × Entity))
  | infoOut (s : InfoStats)
deriving DecidableEq, Repr

/-- Run one query against the loaded document, returning the output and the
document state after the call.  Each branch leaves the document exactly as
loaded: the sorts in `find_related` and `list_entities_by_type` are applied
to freshly built lists (`related` / the filtered `entities`), not to the
stored sequences. -/
def runQuery (kg : KG) : Query → QueryOutput × KG
  | .findEntityQ pat => (.entitiesOut (find_entity kg pat), kg)
  | .findRelatedQ pat => (.relatedOut (find_related kg pat), kg)
  | .listTypesQ => (.typesOut (list_types kg).1 (list_types kg).2, kg)
  | .listEntitiesQ t => (.entitiesOut (list_entities_by_type kg t), kg)
  | .searchQ term => (.searchOut (search kg term).1 (search kg term).2, kg)
  | .infoQ => (.infoOut (show_info kg), kg)

/-! ### The ordering the specification describes for `find_related`

The spec states that ties (identical neighbor names) retain
*relationship-sequence* order as the secondary key.  The following
definition is modelled from those words, for comparison with the code's
actual ordering: annotate every resolved incident relationship with its
index in the document's relationship sequence and sort by
(neighbor name, relationship index). -/

/-- All resolved neighbor triples of `e`, each annotated with the index of
its relationship in the document's relationship sequence. -/
def annotatedRelatedOf (kg : KG) (e : Entity) : List (Nat × Neighbor) :=
  ((kgRels kg).enum.filterMap fun p =>
    if p.2.source == e.id then
      (resolveId kg p.2.target).map fun t => (p.1, ⟨t, p.2.type, Direction.outgoing⟩)
    else none)
  ++ ((kgRels kg).enum.filterMap fun p =>
    if p.2.target == e.id then
      (resolveId kg p.2.source).map fun s => (p.1, ⟨s, p.2.type, Direction.incoming⟩)
    else none)

/-- Comparison by (neighbor name, relationship index). -/
def specNeighborLe (a b : Nat × Neighbor) : Bool :=
  (strLe a.2.entity.name b.2.entity.name && !(strLe b.2.entity.name a.2.entity.name))
  || (a.2.entity.name == b.2.entity.name && decide (a.1 ≤ b.1))

/-- Modelled from the spec: "Results for a given source entity are sorted by
neighbor name …; ties (identical neighbor name) retain relationship-sequence
order as a secondary, stable key."  The neighbor list this predicts. -/
def relatedOfSpecOrder (kg : KG) (e : Entity) : List Neighbor :=
  (insertionSort specNeighborLe (annotatedRelatedOf kg e)).map fun p => p.2

/-! ### Helper lemmas and shared concrete documents -/

theorem neighborLe_trans (a b c : Neighbor) (h1 : neighborLe a b = true)
    (h2 : neighborLe b c = true) : neighborLe a c = true :=
  strLe_trans h1 h2

theorem neighborLe_total (a b : Neighbor) : (neighborLe a b || neighborLe b a) = true :=
  strLe_total _ _

/-- Filtering out elements that a `filterMap` already drops does not change
the `filterMap`. -/
theorem filterMap_filter_eq {α β : Type*} {p : α → Bool} {f : α → Option β}
    {l : List α} (h : ∀ x ∈ l, p x = false → f x = none) :
    (l.filter p).filterMap f = l.filterMap f := by
  induction l with
  | nil => rfl
  | cons a l ih =>
    have ih' := ih fun x hx hpx => h x (List.mem_cons_of_mem a hx) hpx
    cases hpa : p a with
    | true => simp [List.filter_cons, hpa, List.filterMap_cons, ih']
    | false =>
      have hfa : f a = none := h a (List.mem_cons_self a l) hpa
      simp [List.filter_cons, hpa, List.filterMap_cons, hfa, ih']

/-- `find?` returns the element at the first index whose predicate holds. -/
theorem find?_eq_get_of_first {α : Type*} (p : α → Bool) :
    ∀ (l : List α) (i : Nat) (hi : i < l.length),
      p (l.get ⟨i, hi⟩) = true →
      (∀ j (hj : j < i), p (l.get ⟨j, Nat.lt_trans hj hi⟩) = false) →
      l.find? p = some (l.get ⟨i, hi⟩) := by
  intro l
  induction l with
  | nil => intro i hi; exact absurd hi (Nat.not_lt_zero i)
  | cons a l ih =>
    intro i hi hp hfst
    cases i with
    | zero => exact List.find?_cons_of_pos l hp
    | succ i' =>
      have ha : ¬ p a = true := by
        have := hfst 0 (Nat.succ_pos i')
        simp only [List.get] at this
        simp [this]
      rw [List.find?_cons_of_neg l ha]
      exact ih i' (Nat.lt_of_succ_lt_succ hi) hp
        fun j hj => hfst (j + 1) (Nat.succ_lt_succ hj)

/-- Scenario A of the spec: Alice works for Acme. -/
def entAlice : Entity := ⟨"e1", "Alice", some "person", none⟩

def entAcme : Entity := ⟨"e2", "Acme", some "organization", none⟩

def relWorks : Relationship := ⟨"e1", "e2", some "works_for"⟩

def kgScenarioA : KG := ⟨some [entAlice, entAcme], some [relWorks], none, none⟩

/-- C1: for a relationship whose endpoints both resolve, `find_related` on a
pattern matching the source entity's name yields a result group for the
source entity containing the target entity tagged `outgoing` with the
relationship's type, and on a pattern matching the target entity's name a
group for the target entity containing the source entity tagged
`incoming`. -/
theorem find_related_both_directions (kg : KG) (r : Relationship)
    (se te : Entity) (pat : String) (hr : r ∈ kgRels kg)
    (hs : resolveId kg r.source = some se)
    (ht : resolveId kg r.target = some te) :
    (name_matches pat se = true →
      ∃ ns, (se, ns) ∈ find_related kg pat ∧
        Neighbor.mk te r.type Direction.outgoing ∈ ns) ∧
    (name_matches pat te = true →
      ∃ ns, (te, ns) ∈ find_related kg pat ∧
        Neighbor.mk se r.type Direction.incoming ∈ ns) := by
  have hse : se ∈ kgEntities kg := List.mem_of_find?_eq_some hs
  have hte : te ∈ kgEntities kg := List.mem_of_find?_eq_some ht
  have hsid : se.id = r.source := by simpa using List.find?_some hs
  have htid : te.id = r.target := by simpa using List.find?_some ht
  constructor
  · intro hm
    refine ⟨insertionSort neighborLe (relatedOf kg se), ?_, ?_⟩
    · exact List.mem_map.mpr ⟨se, List.mem_filter.mpr ⟨hse, hm⟩, rfl⟩
    · refine (mem_insertionSort neighborLe).mpr (List.mem_append_left _ ?_)
      refine List.mem_filterMap.mpr ⟨r, hr, ?_⟩
      have : (r.source == se.id) = true := by simp [hsid]
      simp [this, ht]
  · intro hm
    refine ⟨insertionSort neighborLe (relatedOf kg te), ?_, ?_⟩
    · exact List.mem_map.mpr ⟨te, List.mem_filter.mpr ⟨hte, hm⟩, rfl⟩
    · refine (mem_insertionSort neighborLe).mpr (List.mem_append_right _ ?_)
      refine List.mem_filterMap.mpr ⟨r, hr, ?_⟩
      have : (r.target == te.id) = true := by simp [htid]
      simp [this, hs]

/-- C1 witness: scenario A instantiated in both directions. -/
theorem find_related_both_directions_witness :
    (∃ ns, (entAlice, ns) ∈ find_related kgScenarioA "alice" ∧
      Neighbor.mk entAcme relWorks.type Direction.outgoing ∈ ns) ∧
    (∃ ns, (entAcme, ns) ∈ find_related kgScenarioA "acme" ∧
      Neighbor.mk entAlice relWorks.type Direction.incoming ∈ ns) :=
  ⟨(find_related_both_directions kgScenarioA relWorks entAlice entAcme "alice"
      (by decide) (by decide) (by decide)).1 (by decide),
   (find_related_both_directions kgScenarioA relWorks entAlice entAcme "acme"
      (by decide) (by decide) (by decide)).2 (by decide)⟩

/-- A document with a single entity that has no `type` key. -/
def kgMissingType : KG := ⟨some [⟨"e1", "A", none, none⟩], some [], none, none⟩

/-- C2 (code bug, evaluated at the failing input): `list_types` buckets a
missing entity type as `'unknown'` when it builds the set of types
(`entity.get('type', 'unknown')`), but counts members with
`e.get('type') == t`, which is `None` for a missing type and never equals
the string `'unknown'`.  With one type-less entity the report is a single
bucket `("unknown", 0)`, whose counts sum to 0 while the document holds 1
entity — so the counts do not sum to `len(entities)`. -/
theorem list_types_missing_type_uncounted :
    list_types kgMissingType = ([("unknown", 0)], []) ∧
    ((list_types kgMissingType).1.map Prod.snd).sum = 0 ∧
    (kgEntities kgMissingType).length = 1 := by decide

/-- The C3 tie document: the relationship NodeB → NodeA occurs first in the
document's relationship sequence, NodeA → NodeB second; both neighbors of
NodeA are NodeB, so their names tie. -/
def entNodeA : Entity := ⟨"a", "NodeA", some "t", none⟩

def entNodeB : Entity := ⟨"b", "NodeB", some "t", none⟩

def kgTie : KG :=
  ⟨some [entNodeA, entNodeB],
   some [⟨"b", "a", some "r1"⟩, ⟨"a", "b", some "r2"⟩], none, none⟩

/-- C3 counterexample: on `kgTie`, `find_related` returns for NodeA the
outgoing triple of relationship `r2` (second in the document) before the
incoming triple of `r1` (first in the document), although both neighbor
names are equal — ties do NOT retain relationship-sequence order, which the
spec-described ordering `relatedOfSpecOrder` (sort by neighbor name, then
relationship index) would produce. -/
theorem find_related_tie_order_counterexample :
    find_related kgTie "nodea" =
      [(entNodeA, [⟨entNodeB, some "r2", Direction.outgoing⟩,
                   ⟨entNodeB, some "r1", Direction.incoming⟩])] ∧
    relatedOfSpecOrder kgTie entNodeA =
      [⟨entNodeB, some "r1", Direction.incoming⟩,
       ⟨entNodeB, some "r2", Direction.outgoing⟩] ∧
    (find_related kgTie "nodea").map Prod.snd ≠
      [relatedOfSpecOrder kgTie entNodeA] := by decide

/-- C3 (amended): each neighbor list produced by `find_related` is sorted by
neighbor name (case-sensitive code-point order), is a permutation of the
accumulated related list, and ties (equal neighbor names) retain the order
of the accumulated related list — which lists all outgoing triples in
relationship-sequence order first, then all incoming triples in
relationship-sequence order, rather than pure relationship-sequence
order. -/
theorem find_related_sorted_stable (kg : KG) (pat : String) (e : Entity)
    (ns : List Neighbor) (h : (e, ns) ∈ find_related kg pat) :
    (ns.Pairwise fun a b => neighborLe a b = true) ∧
    List.Perm ns (relatedOf kg e) ∧
    (∀ a b : Neighbor, List.Sublist [a, b] (relatedOf kg e) →
      a.entity.name = b.entity.name → List.Sublist [a, b] ns) := by
  rcases List.mem_map.mp h with ⟨e', _, heq⟩
  have he : e' = e := congrArg Prod.fst heq
  subst he
  have hns : ns = insertionSort neighborLe (relatedOf kg e') :=
    (congrArg Prod.snd heq).symm
  subst hns
  refine ⟨insertionSort_sorted neighborLe_trans neighborLe_total _,
    insertionSort_perm _ _, ?_⟩
  intro a b hsub hname
  have hle : neighborLe a b = true := by
    unfold neighborLe
    rw [hname]
    exact strLe_refl _
  exact pair_sublist_insertionSort hle hsub

/-- C3 witness: the amended statement instantiated on scenario A. -/
theorem find_related_sorted_stable_witness :
    (([⟨entAcme, some "works_for", Direction.outgoing⟩] :
        List Neighbor).Pairwise fun a b => neighborLe a b = true) ∧
    List.Perm [(⟨entAcme, some "works_for", Direction.outgoing⟩ : Neighbor)]
      (relatedOf kgScenarioA entAlice) ∧
    (∀ a b : Neighbor, List.Sublist [a, b] (relatedOf kgScenarioA entAlice) →
      a.entity.name = b.entity.name →
      List.Sublist [a, b] [(⟨entAcme, some "works_for", Direction.outgoing⟩ : Neighbor)]) :=
  find_related_sorted_stable kgScenarioA "alice" entAlice
    [⟨entAcme, some "works_for", Direction.outgoing⟩] (by decide)

/-- The document with all occurrences of relationship `r` removed (order of
the remaining relationships preserved). -/
def dropRel (kg : KG) (r : Relationship) : KG :=
  { kg with relationships := some ((kgRels kg).filter fun x => !(x == r)) }

theorem resolveId_dropRel (kg : KG) (r : Relationship) (x : String) :
    resolveId (dropRel kg r) x = resolveId kg x := rfl

/-- C4: a relationship with an unresolvable endpoint (a dangling edge)
contributes nothing to `find_related` or to the relationship results of
`search`: removing it from the document leaves both result sets unchanged —
so it is excluded, and all other relationships are returned exactly as
before.  (Both operations are total functions of the document, so no error
arises: the dangling branch reads only `rel['source']`/`rel['target']`.) -/
theorem dangling_edges_excluded (kg : KG) (r : Relationship)
    (_hmem : r ∈ kgRels kg)
    (hd : resolveId kg r.source = none ∨ resolveId kg r.target = none) :
    (∀ pat, find_related (dropRel kg r) pat = find_related kg pat) ∧
    (∀ term, search_relationships (dropRel kg r) term =
      search_relationships kg term) := by
  have hrels : kgRels (dropRel kg r) = (kgRels kg).filter fun x => !(x == r) := rfl
  have hdrop : ∀ e ∈ kgEntities kg, relatedOf (dropRel kg r) e = relatedOf kg e := by
    intro e he
    unfold relatedOf
    simp only [resolveId_dropRel]
    rw [hrels]
    congr 1
    · apply filterMap_filter_eq
      intro x hx hpx
      have hxr : x = r := by simpa using hpx
      subst hxr
      by_cases hsrc : (x.source == e.id) = true
      · have hbeq : (e.id == x.source) = true := by
          rw [beq_iff_eq] at hsrc ⊢
          exact hsrc.symm
        have hsome : (resolveId kg x.source).isSome = true :=
          List.find?_isSome.mpr ⟨e, he, hbeq⟩
        rcases hd with hdl | hdr
        · rw [hdl] at hsome
          simp at hsome
        · simp [hsrc, hdr]
      · simp [hsrc]
    · apply filterMap_filter_eq
      intro x hx hpx
      have hxr : x = r := by simpa using hpx
      subst hxr
      by_cases htgt : (x.target == e.id) = true
      · have hbeq : (e.id == x.target) = true := by
          rw [beq_iff_eq] at htgt ⊢
          exact htgt.symm
        have hsome : (resolveId kg x.target).isSome = true :=
          List.find?_isSome.mpr ⟨e, he, hbeq⟩
        rcases hd with hdl | hdr
        · simp [htgt, hdl]
        · rw [hdr] at hsome
          simp at hsome
      · simp [htgt]
  constructor
  · intro pat
    unfold find_related
    have hfe : find_entity (dropRel kg r) pat = find_entity kg pat := rfl
    rw [hfe]
    apply List.map_congr_left
    intro e he
    rw [hdrop e (List.mem_filter.mp he).1]
  · intro term
    unfold search_relationships
    simp only [resolveId_dropRel]
    rw [hrels]
    apply filterMap_filter_eq
    intro x hx hpx
    have hxr : x = r := by simpa using hpx
    subst hxr
    by_cases hterm : listSub (lowerStr term).data (lowerData (dumpsRelData x)) = true
    · rcases hd with hdl | hdr
      · cases ho : resolveId kg x.target <;> simp [hterm, hdl, ho]
      · cases ho : resolveId kg x.source <;> simp [hterm, hdr, ho]
    · simp [hterm]

/-- The scenario-A document with the target entity removed, making
`relWorks` a dangling edge. -/
def kgDangling : KG := ⟨some [entAlice], some [relWorks], none, none⟩

/-- C4 witness: the dangling edge of `kgDangling` is invisible to
`find_related` and to the relationship results of `search`. -/
theorem dangling_edges_excluded_witness :
    find_related (dropRel kgDangling relWorks) "alice" =
      find_related kgDangling "alice" ∧
    search_relationships (dropRel kgDangling relWorks) "works" =
      search_relationships kgDangling "works" :=
  ⟨(dangling_edges_excluded kgDangling relWorks (by decide)
      (Or.inr (by decide))).1 "alice",
   (dangling_edges_excluded kgDangling relWorks (by decide)
      (Or.inr (by decide))).2 "works"⟩

/-- C5: `find_entity` returns exactly the entities whose name contains the
pattern as a case-insensitive substring, in their original load order (the
result is a sublist of the entity sequence); in particular every entity is
found by its own name, and an empty result is an ordinary value. -/
theorem find_entity_characterization (kg : KG) (pat : String) :
    (find_entity kg pat).Sublist (kgEntities kg) ∧
    (∀ e : Entity, e ∈ find_entity kg pat ↔
      e ∈ kgEntities kg ∧ strIn (lowerStr pat) (lowerStr e.name) = true) ∧
    (∀ e ∈ kgEntities kg, e ∈ find_entity kg e.name) := by
  refine ⟨List.filter_sublist _, fun e => List.mem_filter, fun e he => ?_⟩
  refine List.mem_filter.mpr ⟨he, ?_⟩
  show strIn (lowerStr e.name) (lowerStr e.name) = true
  exact listSub_refl _

/-- C5 witness: Alice is found by her own name in scenario A. -/
theorem find_entity_characterization_witness :
    entAlice ∈ find_entity kgScenarioA entAlice.name :=
  (find_entity_characterization kgScenarioA entAlice.name).2.2 entAlice (by decide)

/-- A document lacking both the `entities` and `relationships` keys but
carrying a non-empty `notes` mapping. -/
def kgNotesOnly : KG := ⟨none, none, some [("k", "v")], none⟩

/-- C6 counterexample: for a document without `entities`/`relationships`
keys the claim demands that `info` report *all* counts as 0, but the note
count reported by `show_info` is the size of the (independent) `notes`
mapping — here 1, not 0. -/
theorem show_info_note_count_counterexample :
    kgNotesOnly.entities = none ∧ kgNotesOnly.relationships = none ∧
    (show_info kgNotesOnly).note_count = 1 ∧
    ¬ (show_info kgNotesOnly).note_count = 0 := by decide

/-- C6 (amended): for a document whose `entities` and `relationships` keys
are absent or empty, every query operation succeeds (all operations are
total functions of the document), the document behaves as if both sequences
were empty, `show_info` reports the entity, relationship, entity-type and
relationship-type counts as 0 (the note count reflects the independent
`notes` mapping), and `list_types` reports empty type sets. -/
theorem empty_document_zero_counts (kg : KG)
    (he : kg.entities = none ∨ kg.entities = some [])
    (hr : kg.relationships = none ∨ kg.relationships = some []) :
    (show_info kg).entity_count = 0 ∧ (show_info kg).rel_count = 0 ∧
    (show_info kg).entity_type_count = 0 ∧ (show_info kg).rel_type_count = 0 ∧
    list_types kg = ([], []) := by
  have he' : kgEntities kg = [] := by
    rcases he with h | h <;> simp [kgEntities, h]
  have hr' : kgRels kg = [] := by
    rcases hr with h | h <;> simp [kgRels, h]
  simp [show_info, list_types, list_types_entities, list_types_rels,
    he', hr', insertionSort]

/-- C6 witness: the amended statement at a concrete empty document (one key
absent, the other an empty sequence). -/
theorem empty_document_zero_counts_witness :
    (show_info ⟨none, some [], some [("k", "v")], none⟩).entity_count = 0 ∧
    (show_info ⟨none, some [], some [("k", "v")], none⟩).rel_count = 0 ∧
    (show_info ⟨none, some [], some [("k", "v")], none⟩).entity_type_count = 0 ∧
    (show_info ⟨none, some [], some [("k", "v")], none⟩).rel_type_count = 0 ∧
    list_types ⟨none, some [], some [("k", "v")], none⟩ = ([], []) :=
  empty_document_zero_counts ⟨none, some [], some [("k", "v")], none⟩
    (Or.inl rfl) (Or.inr rfl)

/-- C7: no query operation mutates the loaded document — running any
request through the state-threaded query surface returns the document
exactly as it was loaded (the sorts in `find_related` and
`list_entities_by_type` act on freshly built lists, never on the stored
sequences, so entities, relationships, their order and the metadata mapping
are unchanged). -/
theorem queries_preserve_document (kg : KG) (q : Query) :
    (runQuery kg q).2 = kg := by
  cases q <;> rfl

/-- C8: every query operation is deterministic — running the same request a
second time against the document left behind by the first run produces the
identical output (and leaves the same document), so two calls with
identical input against the same loaded document give identical results,
ordering included. -/
theorem queries_deterministic (kg : KG) (q : Query) :
    runQuery ((runQuery kg q).2) q = runQuery kg q := by
  cases q <;> rfl

/-- C9: endpoint resolution (`next((e for e in entities if e['id'] == rid),
None)`, shared by `find_entity`, `find_related` and `search` via
`resolveId`) is first-wins: if position `i` holds the first entity in load
order whose id is `rid`, resolution returns exactly that entity — in
particular duplicate ids are resolved deterministically to the earliest
occurrence and never fail (resolution is a total function). -/
theorem resolve_first_wins (kg : KG) (rid : String) (i : Nat)
    (hi : i < (kgEntities kg).length)
    (hid : ((kgEntities kg).get ⟨i, hi⟩).id = rid)
    (hfirst : ∀ j (hj : j < i), ((kgEntities kg).get ⟨j, Nat.lt_trans hj hi⟩).id ≠ rid) :
    resolveId kg rid = some ((kgEntities kg).get ⟨i, hi⟩) := by
  apply find?_eq_get_of_first
  · simpa using hid
  · intro j hj
    simpa using hfirst j hj

/-- A document with two distinct entities sharing the id `d`. -/
def kgDupIds : KG :=
  ⟨some [⟨"d", "First", some "t", none⟩, ⟨"d", "Second", some "t", none⟩],
   some [], none, none⟩

/-- C9 witness: with two entities of id `d`, resolution returns the first
one in load order. -/
theorem resolve_first_wins_witness :
    resolveId kgDupIds "d" = some ⟨"d", "First", some "t", none⟩ :=
  resolve_first_wins kgDupIds "d" 0 (by decide) (by decide)
    fun j hj => absurd hj (Nat.not_lt_zero j)

theorem listSub_append_l {p a : List Char} (b : List Char)
    (h : listSub p a = true) : listSub p (a ++ b) = true := by
  rcases (listSub_iff p a).mp h with ⟨x, y, rfl⟩
  exact (listSub_iff _ _).mpr ⟨x, y ++ b, by simp⟩

theorem listSub_append_r (a : List Char) {p b : List Char}
    (h : listSub p b = true) : listSub p (a ++ b) = true := by
  rcases (listSub_iff p b).mp h with ⟨x, y, rfl⟩
  exact (listSub_iff _ _).mpr ⟨a ++ x, y, by simp⟩

/-- The serialized entity always contains the key text `id`. -/
theorem dumpsEntity_has_id (e : Entity) :
    listSub "id".data (dumpsEntityData e) = true := by
  unfold dumpsEntityData
  apply listSub_append_l
  apply listSub_append_l
  apply listSub_append_l
  apply listSub_append_l
  apply listSub_append_l
  apply listSub_append_l
  decide

/-- The serialized entity always contains the key text `name`. -/
theorem dumpsEntity_has_name (e : Entity) :
    listSub "name".data (dumpsEntityData e) = true := by
  unfold dumpsEntityData
  apply listSub_append_l
  apply listSub_append_l
  apply listSub_append_l
  apply listSub_append_r
  apply listSub_append_l
  decide

/-- When the entity has a `type` key, its serialization contains the key
text `type`. -/
theorem dumpsEntity_has_type (e : Entity) (t : String) (h : e.type = some t) :
    listSub "type".data (dumpsEntityData e) = true := by
  simp only [dumpsEntityData, h]
  apply listSub_append_l
  apply listSub_append_l
  apply listSub_append_r
  apply listSub_append_l
  decide

/-- When the entity has a `source_file` key, its serialization contains the
key text `source_file`. -/
theorem dumpsEntity_has_source_file (e : Entity) (s : String)
    (h : e.source_file = some s) :
    listSub "source_file".data (dumpsEntityData e) = true := by
  simp only [dumpsEntityData, h]
  apply listSub_append_l
  apply listSub_append_r
  apply listSub_append_l
  decide

/-- If the (already lowercased) pattern occurs in an all-lowercase chunk of
`dump`, it occurs in the lowercased `dump`. -/
theorem listSub_in_lower {p fname dump : List Char}
    (hlow : lowerData fname = fname) (h1 : listSub p fname = true)
    (h2 : listSub fname dump = true) : listSub p (lowerData dump) = true := by
  have h3 : listSub (lowerData fname) (lowerData dump) = true :=
    listSub_map lowerChar h2
  rw [hlow] at h3
  exact listSub_trans h1 h3

/-- C10: `search` matches the lowercased term against the lowercased JSON
serialization of each entity, so JSON key names match as well as values:
whenever the lowercased term occurs in one of the entity's present key
names (`id`, `name`, `type` when present, `source_file` when present), the
entity is included in the entity results of `search` — regardless of any
field values. -/
theorem search_matches_field_names (kg : KG) (term : String) (e : Entity)
    (he : e ∈ kgEntities kg)
    (hf : listSub (lowerStr term).data "id".data = true ∨
          listSub (lowerStr term).data "name".data = true ∨
          ((∃ t, e.type = some t) ∧
            listSub (lowerStr term).data "type".data = true) ∨
          ((∃ s, e.source_file = some s) ∧
            listSub (lowerStr term).data "source_file".data = true)) :
    e ∈ search_entities kg term := by
  refine List.mem_filter.mpr ⟨he, ?_⟩
  rcases hf with h | h | ⟨⟨t, ht⟩, h⟩ | ⟨⟨s, hs⟩, h⟩
  · exact listSub_in_lower (by decide) h (dumpsEntity_has_id e)
  · exact listSub_in_lower (by decide) h (dumpsEntity_has_name e)
  · exact listSub_in_lower (by decide) h (dumpsEntity_has_type e t ht)
  · exact listSub_in_lower (by decide) h (dumpsEntity_has_source_file e s hs)

/-- A document whose single entity carries a `source_file` value that does
not contain the text `source_f`. -/
def kgProvenance : KG :=
  ⟨some [⟨"e1", "A", none, some "n.md"⟩], none, none, none⟩

/-- C10 witness: the term `SOURCE_F` occurs in no field value of the entity,
yet `search` finds the entity through the `source_file` key name. -/
theorem search_matches_field_names_witness :
    (⟨"e1", "A", none, some "n.md"⟩ : Entity) ∈
      search_entities kgProvenance "SOURCE_F" :=
  search_matches_field_names kgProvenance "SOURCE_F"
    ⟨"e1", "A", none, some "n.md"⟩ (by decide)
    (Or.inr (Or.inr (Or.inr ⟨⟨"n.md", rfl⟩, by decide⟩)))
